import Mathlib

/-!
# Verification of `benchmarking/AmelieBenchmarkRunner.py`

A shallow embedding of the AMELIE benchmark runner: the per-chunk response
digestion, the per-sample accumulator (`lovdAmelieOutput`, a Python dict
modelled as an insertion-ordered association list), the result writer
(`retrieveSortedAmelieList` / `writeLovdResultsToFile`), the per-job
orchestration loop (`retrieveAmelieResults`) with its resume-skip and
abort-on-error behaviour, and the rate-limiter seeding.

Python floats are modelled as rationals; `float(...)` parsing and
`str(...)` rendering are modelled on plain decimal literals (the domain the
claims exercise). The remote POST endpoint is modelled as an oracle mapping
(sample id, chunk index) to either a network-level error or a JSON body.
-/

namespace AmelieBenchmark

/-- Numeric value of a decimal digit character. -/
def charDigit (c : Char) : Nat := c.toNat - 48

/-- Value of a list of decimal digit characters, most significant first. -/
def digitsVal (cs : List Char) : Nat :=
  cs.foldl (fun acc c => acc * 10 + charDigit c) 0

/-- Models Python `float(s)` (as used in `float(pubmedScores[0])`, line 139)
restricted to plain decimal literals: an optional sign, an integer part and an
optional fractional part, with at least one digit overall. Any other string
fails to parse (`none`, modelling the uncaught `ValueError`). -/
def parseFloat (s : String) : Option ℚ :=
  let go : List Char → Option ℚ := fun body =>
    let ip := body.takeWhile Char.isDigit
    let rest := body.dropWhile Char.isDigit
    match rest with
    | [] => if ip.isEmpty then none else some (mkRat (digitsVal ip) 1)
    | '.' :: frac =>
      if frac.all Char.isDigit && (!ip.isEmpty || !frac.isEmpty) then
        some (mkRat (digitsVal ip * 10 ^ frac.length + digitsVal frac) (10 ^ frac.length))
      else none
    | _ => none
  match s.toList with
  | '-' :: body => (go body).map (fun q => -q)
  | '+' :: body => go body
  | body => go body

/-- Decimal digits of the fractional part `r / d` (with `r < d`), fuelled. -/
def fracDigits : Nat → Nat → Nat → List Char
  | 0, _, _ => []
  | fuel + 1, r, d =>
    if r = 0 then []
    else Char.ofNat (48 + r * 10 / d) :: fracDigits fuel (r * 10 % d) d

/-- Models Python `str(score)` (line 181) on floats whose value has a finite
decimal expansion: sign, integer part, a dot, and the fractional digits
(`"0"` when the value is integral, as Python prints `9.0`). -/
def scoreStr (q : ℚ) : String :=
  let n := q.num.natAbs
  let d := q.den
  let ip := n / d
  let r := n % d
  let frac := if r = 0 then "0" else String.mk (fracDigits 30 r d)
  (if q.num < 0 then "-" else "") ++ toString ip ++ "." ++ frac

/-- One gene's accumulated evidence: ordered `(pubmedId, score)` pairs,
mirroring the inner lists `[pubmedId, score]` of `genePubmedScores`. -/
abbrev GeneScores := List (String × ℚ)

/-- The per-sample accumulator `lovdAmelieOutput`: a Python dict from gene
symbol to its evidence list, modelled as an insertion-ordered association
list with unique keys. -/
abbrev SampleResult := List (String × GeneScores)

/-- Python dict assignment `d[k] = v`: updating an existing key keeps its
position, a new key is appended at the end (dicts preserve insertion order). -/
def dictInsert (d : List (String × α)) (k : String) (v : α) : List (String × α) :=
  match d with
  | [] => [(k, v)]
  | (k₀, v₀) :: rest => if k₀ = k then (k, v) :: rest else (k₀, v₀) :: dictInsert rest k v

/-- Python dict read `d.get(k)` / `d[k]` for the accumulator (the writer only
reads keys that are present; absent keys default to `[]` here). -/
def dictGet (d : SampleResult) (k : String) : GeneScores :=
  match d with
  | [] => []
  | (k₀, v) :: rest => if k₀ = k then v else dictGet rest k

/-- One gene entry of a chunk response: the gene symbol and its
`[scoreAsString, pubmedId]` pairs, as decoded from the response JSON. -/
abbrev RawGene := String × List (String × String)

/-- The inner loop of lines 135–141: builds `genePubmedScores` by appending
`[pubmedId, float(score)]` for each response pair in order; the first
non-parsable score aborts with that score string (the `ValueError`). -/
def buildGeneScores : List (String × String) → Except String GeneScores
  | [] => .ok []
  | (sc, pmid) :: rest =>
    match parseFloat sc with
    | none => .error sc
    | some q =>
      match buildGeneScores rest with
      | .error s => .error s
      | .ok l => .ok ((pmid, q) :: l)

/-- Lines 133–145: digests one chunk response into the accumulator. A gene
whose built list is empty is not inserted; otherwise the dict entry is
(over)written. A score parse failure aborts the digestion. -/
def digestResponse (acc : SampleResult) : List RawGene → Except String SampleResult
  | [] => .ok acc
  | (sym, scores) :: rest =>
    match buildGeneScores scores with
    | .error s => .error s
    | .ok l =>
      digestResponse (if 0 < l.length then dictInsert acc sym l else acc) rest

/-- Digests a sequence of chunk responses in order (the per-sample chunk loop,
viewed at the level of already-received bodies). -/
def digestAll (acc : SampleResult) : List (List RawGene) → Except String SampleResult
  | [] => .ok acc
  | r :: rest =>
    match digestResponse acc r with
    | .error s => .error s
    | .ok acc₂ => digestAll acc₂ rest

/-- The sort key `lovdAmelieOutput[k][0][1]` of line 158: the score of the
first stored entry (Python raises `IndexError` on an empty list; the
accumulator invariant guarantees non-emptiness, and `0` is returned off that
domain). -/
def firstScoreOf (d : SampleResult) (g : String) : ℚ :=
  (((dictGet d g).head?).map (fun e => e.2)).getD 0

/-- The comparison used by line 158: gene `g₁` may precede gene `g₂` exactly
when its first-entry score is ≥ (descending order; ties related both ways). -/
def sortRel (d : SampleResult) (g₁ g₂ : String) : Prop :=
  firstScoreOf d g₂ ≤ firstScoreOf d g₁

instance (d : SampleResult) : DecidableRel (sortRel d) :=
  fun g₁ g₂ => inferInstanceAs (Decidable (firstScoreOf d g₂ ≤ firstScoreOf d g₁))

instance (d : SampleResult) : IsTotal String (sortRel d) :=
  ⟨fun g₁ g₂ => le_total (firstScoreOf d g₂) (firstScoreOf d g₁)⟩

instance (d : SampleResult) : IsTrans String (sortRel d) :=
  ⟨fun _ _ _ h₁₂ h₂₃ => le_trans h₂₃ h₁₂⟩

/-- Line 158: `sorted(lovdAmelieOutput, key=lambda k: lovdAmelieOutput[k][0][1],
reverse=True)` — the dict's keys in insertion order, stably sorted by the score
of the first stored evidence entry, descending. Python's `sorted` is a stable
sort and `reverse=True` flips the key comparison, not the tie order; a stable
sort under a total preorder is unique, so stable insertion sort models it
exactly. -/
def retrieveSortedAmelieList (d : SampleResult) : List String :=
  (d.map (fun p => p.1)).insertionSort (sortRel d)

/-- The serialization of one evidence entry, `pubmedScore[0] + ":" +
str(pubmedScore[1])` (line 181). -/
def entrySerialization (e : String × ℚ) : String := e.1 ++ ":" ++ scoreStr e.2

/-- The write calls of the inner loop of lines 178–181: a comma before every
entry except the first, then the entry serialization. -/
def entryWrites : Nat → GeneScores → List String
  | _, [] => []
  | i, e :: rest =>
    (if 0 < i then [","] else []) ++ [entrySerialization e] ++ entryWrites (i + 1) rest

/-- The write calls emitted for one gene (lines 177–182): the symbol and a tab,
the serialized entries, a newline. -/
def geneWrites (d : SampleResult) (g : String) : List String :=
  [g ++ "\t"] ++ entryWrites 0 (dictGet d g) ++ ["\n"]

/-- Sequential concatenation of the strings passed to `fileWriter.write`. -/
def writeAll : List String → String
  | [] => ""
  | s :: rest => s ++ writeAll rest

/-- `writeLovdResultsToFile` (lines 161–186) as the full file content: the
concatenation of every string passed to `fileWriter.write`, in order. -/
def writeLovdContent (d : SampleResult) : String :=
  writeAll (["gene\tscores\n"] ++ ((retrieveSortedAmelieList d).map (geneWrites d)).flatten)

/-- Comma-separated join with no leading or trailing separator. -/
def commaJoin : List String → String
  | [] => ""
  | [x] => x
  | x :: y :: rest => x ++ "," ++ commaJoin (y :: rest)

/-- Per-gene line shape used to state the output format: symbol, tab,
comma-joined entry serializations, newline. -/
def geneLine (d : SampleResult) (g : String) : String :=
  g ++ "\t" ++ commaJoin ((dictGet d g).map entrySerialization) ++ "\n"

/-- The exceptions caught at the call site (line 126): `ConnectionError`,
`HTTPError` raised by `raise_for_status()` on an error status, `ReadTimeout`. -/
inductive NetErr where
  | connectionError
  | httpError (status : Nat)
  | readTimeout
deriving DecidableEq, Repr

/-- How a job run terminates abnormally: `exit(e)` on a network-level failure
(line 127), or the uncaught `ValueError` of `float(...)` (line 139) carrying
the offending score string. -/
inductive JobError where
  | net (e : NetErr)
  | malformedScore (s : String)
deriving DecidableEq, Repr

/-- The observable outcome of a job: the chunk requests issued (sample id and
chunk index, in order), the files written (path and content, in order), and
whether the job terminated with an error. -/
structure JobTrace where
  calls : List (String × Nat)
  written : List (String × String)
  error : Option JobError
deriving DecidableEq, Repr

/-- The remote endpoint, abstracted: the body of the POST for sample `lovd`
and chunk index `i` is determined by the job inputs, so the response is a
function of `(lovd, i)` — either a caught exception or the decoded JSON body. -/
abbrev Oracle := String → Nat → Except NetErr (List RawGene)

/-- `chunkList` from `BenchmarkGenerics` is imported (line 27) but its source
is not in the repository. Modelled from the spec, §4.1 Chunker: consecutive
groups, all of length `size` except possibly a shorter last one, whose
concatenation reproduces the input in order. -/
def chunkList : List α → Nat → List (List α)
  | [], _ => []
  | x :: xs, size => (x :: xs.take (size - 1)) :: chunkList (xs.drop (size - 1)) size
termination_by l => l.length
decreasing_by simp [List.length_drop]; omega

/-- The inner chunk loop of lines 114–145 for one sample: for each chunk (from
index `i` on) one request is recorded; a request failure aborts with the
network error, a score parse failure aborts with `malformedScore`; otherwise
the response is digested into the accumulator. Returns the requests issued
and either the final accumulator or the aborting error. -/
def runChunks (oracle : Oracle) (lovd : String) :
    List (List String) → Nat → SampleResult →
    List (String × Nat) × Except JobError SampleResult
  | [], _, acc => ([], .ok acc)
  | _chunk :: rest, i, acc =>
    match oracle lovd i with
    | .error e => ([(lovd, i)], .error (.net e))
    | .ok body =>
      match digestResponse acc body with
      | .error s => ([(lovd, i)], .error (.malformedScore s))
      | .ok acc₂ =>
        ((lovd, i) :: (runChunks oracle lovd rest (i + 1) acc₂).1,
          (runChunks oracle lovd rest (i + 1) acc₂).2)

/-- The output path of line 101: `outDir + "/" + lovd + ".tsv"`. -/
def outFilePath (outDir lovd : String) : String := outDir ++ "/" ++ lovd ++ ".tsv"

/-- Combines one finalized sample (its chunk requests `cs` and its written
file) with the run of the remaining samples. -/
def stepOk (outFile content : String) (cs : List (String × Nat))
    (t : JobTrace × List String) : JobTrace × List String :=
  (⟨cs ++ t.1.calls, (outFile, content) :: t.1.written, t.1.error⟩, t.2)

/-- The sample loop of lines 99–148. `existing` is the set of files present
when the job starts; `done` accumulates the files written so far (`isfile`
sees both). A sample whose output file exists is skipped with no request and
no write; otherwise its chunks are run and, on success, its file is written.
Any error aborts the whole job. Returns the job trace and the final `done`. -/
def runSamples (oracle : Oracle) (chunks : List (List String))
    (outDir : String) (existing : List String) :
    List (String × List String) → List String → JobTrace × List String
  | [], done => (⟨[], [], none⟩, done)
  | (lovd, _phenotypes) :: rest, done =>
    if outFilePath outDir lovd ∈ existing ∨ outFilePath outDir lovd ∈ done then
      runSamples oracle chunks outDir existing rest done
    else
      match runChunks oracle lovd chunks 0 [] with
      | (cs, .error e) => (⟨cs, [], some e⟩, done)
      | (cs, .ok result) =>
        stepOk (outFilePath outDir lovd) (writeLovdContent result) cs
          (runSamples oracle chunks outDir existing rest (outFilePath outDir lovd :: done))

/-- `retrieveAmelieResults` (lines 82–148), observationally: the gene universe
is chunked at size 1000 and the samples are processed in order against the
remote oracle and the initially-existing output files. -/
def retrieveAmelieResults (oracle : Oracle)
    (lovdPhenotypes : List (String × List String)) (hgncs : List String)
    (outDir : String) (existing : List String) : JobTrace :=
  (runSamples oracle (chunkList hgncs 1000) outDir existing lovdPhenotypes []).1

/-- `waitTillElapsed` from `BenchmarkGenerics` is imported (line 28) but its
source is not in the repository. Modelled from the spec, §4.2 Rate Limiter:
returns immediately when `elapsed ≥ minInterval` and otherwise blocks for
`minInterval - elapsed` seconds. Modelled as the duration slept. -/
def waitTillElapsed (minInterval elapsed : ℚ) : ℚ :=
  if minInterval ≤ elapsed then 0 else minInterval - elapsed

/-- Line 96: `requestTime = -time()` — the seed of the rate-limiter state,
the negated wall-clock time at initialization. -/
def initialRequestTime (t₀ : ℚ) : ℚ := -t₀

/-- Line 118 at the first gate check: `time() - requestTime` where `time()`
is the wall clock `t₁` at the check and `requestTime` is the seeded state. -/
def firstElapsed (t₀ t₁ : ℚ) : ℚ := t₁ - initialRequestTime t₀

/-! ## Helper lemmas -/

theorem mem_dictInsert {d : List (String × α)} {k : String} {v : α} {p : String × α}
    (h : p ∈ dictInsert d k v) : p = (k, v) ∨ p ∈ d := by
  induction d with
  | nil => simpa [dictInsert] using h
  | cons q rest ih =>
    obtain ⟨k₀, v₀⟩ := q
    by_cases hk : k₀ = k
    · simp only [dictInsert, if_pos hk] at h
      rcases List.mem_cons.mp h with h | h
      · exact Or.inl h
      · exact Or.inr (List.mem_cons_of_mem _ h)
    · simp only [dictInsert, if_neg hk] at h
      rcases List.mem_cons.mp h with h | h
      · exact Or.inr (h ▸ List.mem_cons_self _ _)
      · rcases ih h with h | h
        · exact Or.inl h
        · exact Or.inr (List.mem_cons_of_mem _ h)

theorem dictGet_dictInsert_self (d : SampleResult) (k : String) (v : GeneScores) :
    dictGet (dictInsert d k v) k = v := by
  induction d with
  | nil => simp [dictInsert, dictGet]
  | cons q rest ih =>
    obtain ⟨k₀, v₀⟩ := q
    by_cases hk : k₀ = k
    · simp [dictInsert, dictGet, hk]
    · simp [dictInsert, dictGet, hk, ih]

theorem dictGet_dictInsert_ne (d : SampleResult) (k : String) (v : GeneScores)
    (k' : String) (h : k ≠ k') : dictGet (dictInsert d k v) k' = dictGet d k' := by
  induction d with
  | nil => simp [dictInsert, dictGet, h]
  | cons q rest ih =>
    obtain ⟨k₀, v₀⟩ := q
    by_cases hk : k₀ = k
    · simp [dictInsert, dictGet, hk, h]
    · simp only [dictInsert, if_neg hk]
      by_cases hk' : k₀ = k'
      · simp [dictGet, hk']
      · simp [dictGet, hk', ih]

theorem digestResponse_nonempty (resp : List RawGene) :
    ∀ (acc r : SampleResult), (∀ p ∈ acc, p.2 ≠ []) →
      digestResponse acc resp = .ok r → ∀ p ∈ r, p.2 ≠ [] := by
  induction resp with
  | nil =>
    intro acc r hacc h
    simp only [digestResponse] at h
    cases h
    exact hacc
  | cons entry rest ih =>
    obtain ⟨sym, scores⟩ := entry
    intro acc r hacc h
    simp only [digestResponse] at h
    cases hb : buildGeneScores scores with
    | error s => rw [hb] at h; cases h
    | ok l =>
      rw [hb] at h
      refine ih _ r ?_ h
      intro p hp
      by_cases hl : 0 < l.length
      · rw [if_pos hl] at hp
        rcases mem_dictInsert hp with hpe | hpe
        · subst hpe
          simpa using List.length_pos.mp hl
        · exact hacc p hpe
      · rw [if_neg hl] at hp
        exact hacc p hp

theorem digestAll_nonempty (responses : List (List RawGene)) :
    ∀ (acc r : SampleResult), (∀ p ∈ acc, p.2 ≠ []) →
      digestAll acc responses = .ok r → ∀ p ∈ r, p.2 ≠ [] := by
  induction responses with
  | nil =>
    intro acc r hacc h
    simp only [digestAll] at h
    cases h
    exact hacc
  | cons resp rest ih =>
    intro acc r hacc h
    simp only [digestAll] at h
    cases hd : digestResponse acc resp with
    | error s => rw [hd] at h; cases h
    | ok acc₂ =>
      rw [hd] at h
      exact ih acc₂ r (digestResponse_nonempty resp acc acc₂ hacc hd) h

theorem runChunks_ok_nonempty (chunks : List (List String)) (oracle : Oracle)
    (lovd : String) :
    ∀ (i : Nat) (acc : SampleResult) (cs : List (String × Nat)) (r : SampleResult),
      (∀ p ∈ acc, p.2 ≠ []) →
      runChunks oracle lovd chunks i acc = (cs, .ok r) → ∀ p ∈ r, p.2 ≠ [] := by
  induction chunks with
  | nil =>
    intro i acc cs r hacc h
    simp only [runChunks] at h
    cases h
    exact hacc
  | cons c rest ih =>
    intro i acc cs r hacc h
    simp only [runChunks] at h
    split at h
    · simp at h
    · rename_i body heq
      split at h
      · simp at h
      · rename_i acc₂ hd
        have h₂ : (runChunks oracle lovd rest (i + 1) acc₂).2 = Except.ok r :=
          congrArg Prod.snd h
        exact ih (i + 1) acc₂ _ r (digestResponse_nonempty body acc acc₂ hacc hd)
          (by rw [← h₂])

/-! ## Claim theorems -/

/-- C4: for every sequence of chunk responses merged into a SampleResult, a
gene whose evidence list is empty after processing its response entry is never
inserted as a key: every value list in the resulting SampleResult is
non-empty. Stated both for the merge of already-received response bodies
(`digestAll`) and for the full chunk loop against the remote oracle
(`runChunks`), starting from any accumulator with non-empty values (in
particular the empty accumulator of line 111). -/
theorem c4_empty_gene_never_inserted :
    (∀ (responses : List (List RawGene)) (acc result : SampleResult),
      (∀ p ∈ acc, p.2 ≠ []) → digestAll acc responses = .ok result →
      ∀ p ∈ result, p.2 ≠ []) ∧
    (∀ (oracle : Oracle) (lovd : String) (chunks : List (List String)) (i : Nat)
      (acc : SampleResult) (cs : List (String × Nat)) (result : SampleResult),
      (∀ p ∈ acc, p.2 ≠ []) → runChunks oracle lovd chunks i acc = (cs, .ok result) →
      ∀ p ∈ result, p.2 ≠ []) :=
  ⟨fun responses acc result hacc h => digestAll_nonempty responses acc result hacc h,
   fun oracle lovd chunks i acc cs result hacc h =>
     runChunks_ok_nonempty chunks oracle lovd i acc cs result hacc h⟩

/-- Witness for C4: digesting a response in which gene `H` has no evidence
yields an accumulator whose single value list is non-empty (and `H` absent). -/
theorem c4_empty_gene_never_inserted_witness : [("p1", mkRat 1 1)] ≠ ([] : GeneScores) :=
  c4_empty_gene_never_inserted.1 [[("G", [("1.0", "p1")]), ("H", [])]] []
    [("G", [("p1", mkRat 1 1)])] (by simp) rfl ("G", [("p1", mkRat 1 1)]) (by simp)

/-- C9: for every gene entry of a chunk response — a sequence of
`(score, evidenceId)` pairs — the accumulator stores an ordered list of
`(evidenceId, parsed-float-score)` pairs in exactly the order the API returned
them, preserving duplicates of evidenceId: the built list is positionwise
related to the raw pairs (same length, same order, id copied, score parsed). -/
theorem c9_entries_order_preserved (raw : List (String × String)) (l : GeneScores)
    (h : buildGeneScores raw = .ok l) :
    List.Forall₂ (fun e p => p.1 = e.2 ∧ parseFloat e.1 = some p.2) raw l := by
  induction raw generalizing l with
  | nil =>
    simp only [buildGeneScores] at h
    cases h
    exact List.Forall₂.nil
  | cons e rest ih =>
    obtain ⟨sc, pmid⟩ := e
    simp only [buildGeneScores] at h
    split at h
    · cases h
    · rename_i q hq
      split at h
      · cases h
      · rename_i l' hl'
        cases h
        exact List.Forall₂.cons ⟨rfl, hq⟩ (ih l' hl')

/-- Witness for C9: a response entry with a duplicated evidence id is stored
in order with the duplicate preserved. -/
theorem c9_entries_order_preserved_witness :
    List.Forall₂
      (fun (e : String × String) (p : String × ℚ) => p.1 = e.2 ∧ parseFloat e.1 = some p.2)
      [("1.5", "p"), ("2.0", "p")] [("p", mkRat 3 2), ("p", mkRat 2 1)] :=
  c9_entries_order_preserved [("1.5", "p"), ("2.0", "p")]
    [("p", mkRat 3 2), ("p", mkRat 2 1)] rfl

theorem writeAll_cons (s : String) (rest : List String) :
    writeAll (s :: rest) = s ++ writeAll rest := rfl

theorem writeAll_append (a b : List String) :
    writeAll (a ++ b) = writeAll a ++ writeAll b := by
  induction a with
  | nil => simp [writeAll]
  | cons s rest ih => simp [writeAll, ih, String.append_assoc]

theorem writeAll_entryWrites (l : GeneScores) :
    ∀ i : Nat, writeAll (entryWrites i l) =
      (if 0 < i ∧ l ≠ [] then "," else "") ++ commaJoin (l.map entrySerialization) := by
  induction l with
  | nil => intro i; simp [entryWrites, writeAll, commaJoin]
  | cons e rest ih =>
    intro i
    rw [entryWrites, writeAll_append, writeAll_append, ih (i + 1)]
    cases rest with
    | nil =>
      by_cases hi : 0 < i <;> simp [writeAll, commaJoin, hi, String.append_assoc]
    | cons f rs =>
      by_cases hi : 0 < i <;> simp [writeAll, commaJoin, hi, String.append_assoc]

theorem writeAll_geneWrites (d : SampleResult) (g : String) :
    writeAll (geneWrites d g) = geneLine d g := by
  rw [geneWrites, writeAll_append, writeAll_append, writeAll_entryWrites]
  simp [writeAll, geneLine, String.append_assoc]

theorem writeAll_flatten_geneWrites (d : SampleResult) (gs : List String) :
    writeAll ((gs.map (geneWrites d)).flatten) = writeAll (gs.map (geneLine d)) := by
  induction gs with
  | nil => simp
  | cons g rest ih =>
    simp only [List.map_cons, List.flatten_cons, writeAll_append, writeAll_geneWrites, ih,
      writeAll_cons]

theorem writeLovdContent_eq (d : SampleResult) :
    writeLovdContent d =
      "gene\tscores\n" ++ writeAll ((retrieveSortedAmelieList d).map (geneLine d)) := by
  simp [writeLovdContent, writeAll_append, writeAll, writeAll_flatten_geneWrites]

/-- C1: for every SampleResult with at least one gene (and, per the
accumulator invariant, no empty value list), the writer orders the genes in
the output file by the score of the first EvidenceEntry in each gene's list,
descending: whenever gene `g₁`'s line precedes gene `g₂`'s line, the first
entry's score of `g₁` is ≥ that of `g₂`. -/
theorem c1_genes_ordered_by_first_score_desc (d : SampleResult)
    (hd : d ≠ []) (hvals : ∀ p ∈ d, p.2 ≠ []) :
    List.Pairwise (fun g₁ g₂ => firstScoreOf d g₂ ≤ firstScoreOf d g₁)
      (retrieveSortedAmelieList d) := by
  have h := List.sorted_insertionSort (sortRel d) (d.map (fun p => p.1))
  simpa [List.Sorted, sortRel, retrieveSortedAmelieList] using h

/-- Witness for C1: a three-gene SampleResult is written with the two
score-9 genes before the score-5 gene. -/
theorem c1_genes_ordered_by_first_score_desc_witness :
    List.Pairwise
      (fun g₁ g₂ =>
        firstScoreOf
            [("BRCA1", [("pm1", mkRat 9 1)]), ("TP53", [("pm2", mkRat 5 1)]),
              ("EGFR", [("pm3", mkRat 9 1)])] g₂ ≤
          firstScoreOf
            [("BRCA1", [("pm1", mkRat 9 1)]), ("TP53", [("pm2", mkRat 5 1)]),
              ("EGFR", [("pm3", mkRat 9 1)])] g₁)
      (retrieveSortedAmelieList
        [("BRCA1", [("pm1", mkRat 9 1)]), ("TP53", [("pm2", mkRat 5 1)]),
          ("EGFR", [("pm3", mkRat 9 1)])]) :=
  c1_genes_ordered_by_first_score_desc
    [("BRCA1", [("pm1", mkRat 9 1)]), ("TP53", [("pm2", mkRat 5 1)]),
      ("EGFR", [("pm3", mkRat 9 1)])] (by decide) (by decide)

/-- C2: the file written by `writeLovdResultsToFile` starts with the exact
header line `gene\tscores`, and the rest of the content is one line per gene
in sorted order: the symbol, a tab, the entries serialized as
`<evidenceId>:<score>` joined by commas with no trailing separator, one
newline per line, and nothing after the final newline. In particular writing
`{"BRCA1": [("pm1", 9.5), ("pm2", 3.1)]}` produces exactly the two lines
`gene\tscores` and `BRCA1\tpm1:9.5,pm2:3.1`. -/
theorem c2_file_format :
    (∀ d : SampleResult,
      writeLovdContent d =
        "gene\tscores\n" ++ writeAll ((retrieveSortedAmelieList d).map (geneLine d))) ∧
    writeLovdContent [("BRCA1", [("pm1", mkRat 19 2), ("pm2", mkRat 31 10)])] =
      "gene\tscores\nBRCA1\tpm1:9.5,pm2:3.1\n" :=
  ⟨writeLovdContent_eq, by decide⟩

/-- C10: for a SampleResult whose keys are distinct (a dict) and whose value
lists are non-empty, two genes with equal first-entry scores are written in
their insertion order (the sort is stable over the mapping's order), and every
gene of the SampleResult appears exactly once in the output. -/
theorem c10_ties_in_insertion_order_and_unique (d : SampleResult)
    (hkeys : (d.map (fun p => p.1)).Nodup) (hvals : ∀ p ∈ d, p.2 ≠ [])
    (g₁ g₂ : String) (hscore : firstScoreOf d g₁ = firstScoreOf d g₂)
    (hsub : List.Sublist [g₁, g₂] (d.map (fun p => p.1))) :
    List.Sublist [g₁, g₂] (retrieveSortedAmelieList d) ∧
      ∀ g ∈ d.map (fun p => p.1), (retrieveSortedAmelieList d).count g = 1 := by
  constructor
  · exact List.pair_sublist_insertionSort (le_of_eq hscore.symm) hsub
  · intro g hg
    have hperm := List.perm_insertionSort (sortRel d) (d.map (fun p => p.1))
    rw [retrieveSortedAmelieList, hperm.count_eq]
    exact List.count_eq_one_of_mem hkeys hg

/-- Witness for C10: two genes with equal score 7 keep their insertion order
`A` before `B` in the output and each appears exactly once. -/
theorem c10_ties_in_insertion_order_and_unique_witness :
    List.Sublist ["A", "B"]
        (retrieveSortedAmelieList [("A", [("p", mkRat 7 1)]), ("B", [("q", mkRat 7 1)])]) ∧
      ∀ g ∈ ([("A", [("p", mkRat 7 1)]), ("B", [("q", mkRat 7 1)])] : SampleResult).map
          (fun p => p.1),
        (retrieveSortedAmelieList
          [("A", [("p", mkRat 7 1)]), ("B", [("q", mkRat 7 1)])]).count g = 1 :=
  c10_ties_in_insertion_order_and_unique
    [("A", [("p", mkRat 7 1)]), ("B", [("q", mkRat 7 1)])] (by decide) (by decide)
    "A" "B" (by decide) (by decide)

theorem runSamples_skip (oracle : Oracle) (chunks : List (List String))
    (outDir : String) (existing : List String) (lovd : String) (phen : List String) :
    ∀ (pre post : List (String × List String)) (done : List String),
      outFilePath outDir lovd ∈ existing →
      runSamples oracle chunks outDir existing (pre ++ (lovd, phen) :: post) done =
        runSamples oracle chunks outDir existing (pre ++ post) done := by
  intro pre
  induction pre with
  | nil =>
    intro post done hex
    simp only [List.nil_append, runSamples]
    rw [if_pos (Or.inl hex)]
  | cons s rest ih =>
    intro post done hex
    obtain ⟨l₀, p₀⟩ := s
    simp only [List.cons_append, runSamples]
    by_cases hskip : outFilePath outDir l₀ ∈ existing ∨ outFilePath outDir l₀ ∈ done
    · simp only [if_pos hskip]
      exact ih post done hex
    · simp only [if_neg hskip]
      rcases hrc : runChunks oracle l₀ chunks 0 [] with ⟨cs, r⟩
      cases r with
      | error e => rfl
      | ok result =>
        exact congrArg (stepOk (outFilePath outDir l₀) (writeLovdContent result) cs)
          (ih post (outFilePath outDir l₀ :: done) hex)

/-- C5: a sample whose output file `<sampleId>.tsv` already exists in the
output directory at the start of its turn is skipped with zero remote calls
and zero writes for it, and the job continues with the next sample exactly as
if the skipped sample were absent; samples without an existing file are
processed normally. -/
theorem c5_resume_skips_existing_sample (oracle : Oracle)
    (lovdPhenotypes₁ lovdPhenotypes₂ : List (String × List String))
    (lovd : String) (phen : List String) (hgncs : List String)
    (outDir : String) (existing : List String)
    (hex : outFilePath outDir lovd ∈ existing) :
    retrieveAmelieResults oracle (lovdPhenotypes₁ ++ (lovd, phen) :: lovdPhenotypes₂)
        hgncs outDir existing =
      retrieveAmelieResults oracle (lovdPhenotypes₁ ++ lovdPhenotypes₂) hgncs outDir existing :=
  congrArg Prod.fst
    (runSamples_skip oracle (chunkList hgncs 1000) outDir existing lovd phen
      lovdPhenotypes₁ lovdPhenotypes₂ [] hex)

/-- Witness for C5: with `out/sampleA.tsv` already present, running over
`[sampleA, sampleB]` equals running over `[sampleB]` alone. -/
theorem c5_resume_skips_existing_sample_witness :
    retrieveAmelieResults (fun _ _ => Except.ok []) [("sampleA", []), ("sampleB", [])]
        ["G1"] "out" ["out/sampleA.tsv"] =
      retrieveAmelieResults (fun _ _ => Except.ok []) [("sampleB", [])]
        ["G1"] "out" ["out/sampleA.tsv"] :=
  c5_resume_skips_existing_sample (fun _ _ => Except.ok []) [] [("sampleB", [])]
    "sampleA" [] ["G1"] "out" ["out/sampleA.tsv"] (by decide)

theorem runSamples_error_step (oracle : Oracle) (chunks : List (List String))
    (outDir : String) (existing : List String) (lovd : String) (phen : List String)
    (post : List (String × List String)) (cs : List (String × Nat)) (err : JobError)
    (hrc : runChunks oracle lovd chunks 0 [] = (cs, .error err)) :
    ∀ (pre : List (String × List String)) (done : List String),
      (runSamples oracle chunks outDir existing pre done).1.error = none →
      outFilePath outDir lovd ∉ existing →
      outFilePath outDir lovd ∉ (runSamples oracle chunks outDir existing pre done).2 →
      runSamples oracle chunks outDir existing (pre ++ (lovd, phen) :: post) done =
        (⟨(runSamples oracle chunks outDir existing pre done).1.calls ++ cs,
          (runSamples oracle chunks outDir existing pre done).1.written, some err⟩,
         (runSamples oracle chunks outDir existing pre done).2) := by
  intro pre
  induction pre with
  | nil =>
    intro done _herr hex hdone
    simp only [runSamples] at hdone
    rw [List.nil_append]
    simp only [runSamples]
    rw [if_neg (not_or.mpr ⟨hex, hdone⟩), hrc]
    simp
  | cons s rest ih =>
    intro done herr hex hdone
    obtain ⟨l₀, p₀⟩ := s
    simp only [List.cons_append, runSamples] at herr hdone ⊢
    by_cases hskip : outFilePath outDir l₀ ∈ existing ∨ outFilePath outDir l₀ ∈ done
    · simp only [if_pos hskip] at herr hdone ⊢
      exact ih done herr hex hdone
    · simp only [if_neg hskip] at herr hdone ⊢
      rcases hrc₀ : runChunks oracle l₀ chunks 0 [] with ⟨cs₀, r₀⟩
      rw [hrc₀] at herr hdone
      cases r₀ with
      | error e₀ => simp at herr
      | ok result₀ =>
        simp only [stepOk, List.append_eq] at herr hdone ⊢
        rw [ih (outFilePath outDir l₀ :: done) herr hex hdone]
        simp [List.append_assoc]

theorem runChunks_net_error_calls (oracle : Oracle) (lovd : String) :
    ∀ (chunks : List (List String)) (i : Nat) (acc : SampleResult)
      (cs : List (String × Nat)) (e : NetErr),
      runChunks oracle lovd chunks i acc = (cs, .error (.net e)) →
      ∃ m, 0 < m ∧ m ≤ chunks.length ∧
        cs = (List.range' i m).map (fun j => (lovd, j)) ∧
        oracle lovd (i + m - 1) = .error e := by
  intro chunks
  induction chunks with
  | nil =>
    intro i acc cs e h
    simp only [runChunks] at h
    injection h with h₁ h₂
    cases h₂
  | cons c rest ih =>
    intro i acc cs e h
    simp only [runChunks] at h
    split at h
    · rename_i e₀ ho
      injection h with h₁ h₂
      injection h₂ with h₃
      injection h₃ with h₄
      refine ⟨1, Nat.one_pos, Nat.succ_le_succ (Nat.zero_le _), ?_, ?_⟩
      · rw [← h₁]; simp [List.range']
      · simpa [h₄] using ho
    · rename_i body ho
      split at h
      · injection h with h₁ h₂
        injection h₂ with h₃
        cases h₃
      · rename_i acc₂ hd
        injection h with h₁ h₂
        obtain ⟨m, hm0, hmle, hcs, hor⟩ :=
          ih (i + 1) acc₂ (runChunks oracle lovd rest (i + 1) acc₂).1 e (by rw [← h₂])
        refine ⟨m + 1, Nat.succ_pos m, Nat.succ_le_succ hmle, ?_, ?_⟩
        · rw [← h₁, hcs]
          rfl
        · have harith : i + (m + 1) - 1 = i + 1 + m - 1 := by omega
          rw [harith]
          exact hor

/-- C3: a transport-level failure or an error HTTP status on any chunk request
terminates the entire job immediately. First conjunct: if the pre-failure
samples complete cleanly and the failing sample is not skipped, the whole run
ends with the network error, writes exactly the files of the earlier samples
(none for the in-progress sample) and issues no request for any later sample.
Second conjunct: within the failing sample, the requests issued are the
consecutive chunks up to and including the failing one — the request that
raised the error is the last one, so no further chunk of that sample is
requested. -/
theorem c3_network_failure_aborts_job :
    (∀ (oracle : Oracle) (chunks : List (List String)) (outDir : String)
      (existing : List String) (pre post : List (String × List String))
      (lovd : String) (phen : List String) (done : List String)
      (cs : List (String × Nat)) (e : NetErr),
      runChunks oracle lovd chunks 0 [] = (cs, .error (.net e)) →
      (runSamples oracle chunks outDir existing pre done).1.error = none →
      outFilePath outDir lovd ∉ existing →
      outFilePath outDir lovd ∉ (runSamples oracle chunks outDir existing pre done).2 →
      runSamples oracle chunks outDir existing (pre ++ (lovd, phen) :: post) done =
        (⟨(runSamples oracle chunks outDir existing pre done).1.calls ++ cs,
          (runSamples oracle chunks outDir existing pre done).1.written,
          some (.net e)⟩,
         (runSamples oracle chunks outDir existing pre done).2)) ∧
    (∀ (oracle : Oracle) (lovd : String) (chunks : List (List String)) (i : Nat)
      (acc : SampleResult) (cs : List (String × Nat)) (e : NetErr),
      runChunks oracle lovd chunks i acc = (cs, .error (.net e)) →
      ∃ m, 0 < m ∧ m ≤ chunks.length ∧
        cs = (List.range' i m).map (fun j => (lovd, j)) ∧
        oracle lovd (i + m - 1) = .error e) :=
  ⟨fun oracle chunks outDir existing pre post lovd phen done cs e hrc herr hex hdone =>
    runSamples_error_step oracle chunks outDir existing lovd phen post cs (.net e) hrc
      pre done herr hex hdone,
   fun oracle lovd chunks i acc cs e h =>
    runChunks_net_error_calls oracle lovd chunks i acc cs e h⟩

/-- Witness for C3: a connection error on chunk 2 of sample `s1` (out of two
chunks, with a later sample `s2` pending) aborts the run with no write for
`s1` and no request for `s2`. -/
theorem c3_network_failure_aborts_job_witness :
    runSamples (fun _ i => if i = 0 then Except.ok [] else Except.error NetErr.connectionError)
        [["g1"], ["g2"]] "out" [] ([] ++ ("s1", []) :: [("s2", [])]) [] =
      (⟨(runSamples (fun _ i => if i = 0 then Except.ok [] else Except.error NetErr.connectionError)
            [["g1"], ["g2"]] "out" [] [] []).1.calls ++ [("s1", 0), ("s1", 1)],
        (runSamples (fun _ i => if i = 0 then Except.ok [] else Except.error NetErr.connectionError)
            [["g1"], ["g2"]] "out" [] [] []).1.written,
        some (.net NetErr.connectionError)⟩,
       (runSamples (fun _ i => if i = 0 then Except.ok [] else Except.error NetErr.connectionError)
          [["g1"], ["g2"]] "out" [] [] []).2) :=
  c3_network_failure_aborts_job.1
    (fun _ i => if i = 0 then Except.ok [] else Except.error NetErr.connectionError)
    [["g1"], ["g2"]] "out" [] [] [("s2", [])] "s1" [] [] [("s1", 0), ("s1", 1)]
    NetErr.connectionError rfl rfl (by decide) (by decide)

theorem buildGeneScores_error_parse :
    ∀ (raw : List (String × String)) (s : String),
      buildGeneScores raw = .error s → parseFloat s = none := by
  intro raw
  induction raw with
  | nil =>
    intro s h
    simp only [buildGeneScores] at h
    cases h
  | cons e rest ih =>
    obtain ⟨sc, pmid⟩ := e
    intro s h
    simp only [buildGeneScores] at h
    cases hp : parseFloat sc with
    | none =>
      rw [hp] at h
      cases h
      exact hp
    | some q =>
      rw [hp] at h
      cases hbr : buildGeneScores rest with
      | error s₀ =>
        rw [hbr] at h
        cases h
        exact ih _ hbr
      | ok l =>
        rw [hbr] at h
        cases h

theorem buildGeneScores_mem_error :
    ∀ (raw : List (String × String)) (sc pmid : String),
      (sc, pmid) ∈ raw → parseFloat sc = none →
      ∃ s, buildGeneScores raw = .error s ∧ parseFloat s = none := by
  intro raw
  induction raw with
  | nil =>
    intro sc pmid hmem _
    cases hmem
  | cons e rest ih =>
    obtain ⟨sc₀, pmid₀⟩ := e
    intro sc pmid hmem hnone
    cases hp : parseFloat sc₀ with
    | none => exact ⟨sc₀, by simp [buildGeneScores, hp], hp⟩
    | some q =>
      rcases List.mem_cons.mp hmem with heq | hmem₂
      · cases heq
        rw [hp] at hnone
        cases hnone
      · obtain ⟨s, hs, hsn⟩ := ih sc pmid hmem₂ hnone
        exact ⟨s, by simp [buildGeneScores, hp, hs], hsn⟩

theorem digestResponse_mem_error :
    ∀ (resp : List RawGene) (acc : SampleResult) (g : String)
      (raw : List (String × String)) (sc pmid : String),
      (g, raw) ∈ resp → (sc, pmid) ∈ raw → parseFloat sc = none →
      ∃ s, digestResponse acc resp = .error s ∧ parseFloat s = none := by
  intro resp
  induction resp with
  | nil =>
    intro acc g raw sc pmid hmem _ _
    cases hmem
  | cons entry rest ih =>
    obtain ⟨g₀, raw₀⟩ := entry
    intro acc g raw sc pmid hmem hmem₂ hnone
    cases hb : buildGeneScores raw₀ with
    | error s₀ =>
      exact ⟨s₀, by simp [digestResponse, hb], buildGeneScores_error_parse raw₀ s₀ hb⟩
    | ok l₀ =>
      rcases List.mem_cons.mp hmem with heq | hmem₃
      · rw [Prod.mk.injEq] at heq
        obtain ⟨hg, hraw⟩ := heq
        subst hg
        subst hraw
        obtain ⟨s, hs, hsn⟩ := buildGeneScores_mem_error raw sc pmid hmem₂ hnone
        rw [hb] at hs
        cases hs
      · obtain ⟨s, hs, hsn⟩ :=
          ih (if 0 < l₀.length then dictInsert acc g₀ l₀ else acc) g raw sc pmid hmem₃
            hmem₂ hnone
        exact ⟨s, by simp [digestResponse, hb, hs], hsn⟩

/-- C6: a chunk response containing a score field that cannot be parsed as a
number fails the whole job as a hard, uncaught error, and no result file is
written for the sample being processed. First conjunct: digesting a response
with an unparsable score always yields a parse error (carrying an unparsable
score string). Second conjunct: when the failing sample's chunk loop ends in
that error, the whole run terminates with it, writes exactly the earlier
samples' files (none for the in-progress sample) and issues no request for
any later sample. -/
theorem c6_malformed_score_fails_job :
    (∀ (acc : SampleResult) (resp : List RawGene) (g : String)
      (raw : List (String × String)) (sc pmid : String),
      (g, raw) ∈ resp → (sc, pmid) ∈ raw → parseFloat sc = none →
      ∃ s, digestResponse acc resp = .error s ∧ parseFloat s = none) ∧
    (∀ (oracle : Oracle) (chunks : List (List String)) (outDir : String)
      (existing : List String) (pre post : List (String × List String))
      (lovd : String) (phen : List String) (done : List String)
      (cs : List (String × Nat)) (s : String),
      runChunks oracle lovd chunks 0 [] = (cs, .error (.malformedScore s)) →
      (runSamples oracle chunks outDir existing pre done).1.error = none →
      outFilePath outDir lovd ∉ existing →
      outFilePath outDir lovd ∉ (runSamples oracle chunks outDir existing pre done).2 →
      runSamples oracle chunks outDir existing (pre ++ (lovd, phen) :: post) done =
        (⟨(runSamples oracle chunks outDir existing pre done).1.calls ++ cs,
          (runSamples oracle chunks outDir existing pre done).1.written,
          some (.malformedScore s)⟩,
         (runSamples oracle chunks outDir existing pre done).2)) :=
  ⟨fun acc resp g raw sc pmid hmem hmem₂ hnone =>
    digestResponse_mem_error resp acc g raw sc pmid hmem hmem₂ hnone,
   fun oracle chunks outDir existing pre post lovd phen done cs s hrc herr hex hdone =>
    runSamples_error_step oracle chunks outDir existing lovd phen post cs
      (.malformedScore s) hrc pre done herr hex hdone⟩

/-- Witness for C6: a response whose score field is `"abc"` fails sample `s1`
with a malformed-score error; no file is written and the pending sample `s2`
is never requested. -/
theorem c6_malformed_score_fails_job_witness :
    runSamples (fun _ _ => Except.ok [("G", [("abc", "p")])]) [["g1"]] "out" []
        ([] ++ ("s1", []) :: [("s2", [])]) [] =
      (⟨(runSamples (fun _ _ => Except.ok [("G", [("abc", "p")])]) [["g1"]] "out" []
            [] []).1.calls ++ [("s1", 0)],
        (runSamples (fun _ _ => Except.ok [("G", [("abc", "p")])]) [["g1"]] "out" []
            [] []).1.written,
        some (.malformedScore "abc")⟩,
       (runSamples (fun _ _ => Except.ok [("G", [("abc", "p")])]) [["g1"]] "out" []
          [] []).2) :=
  c6_malformed_score_fails_job.2 (fun _ _ => Except.ok [("G", [("abc", "p")])])
    [["g1"]] "out" [] [] [("s2", [])] "s1" [] [] [("s1", 0)] "abc" rfl rfl
    (by decide) (by decide)

/-- C7 counterexample: the claim asserts the elapsed time computed at the
first gate check is always ≥ 1 given only a non-negative wall clock at
initialization. At wall clock `t₀ = 0` (non-negative) and first-check clock
`t₁ = 0` (≥ t₀), the seeded state gives elapsed `0 < 1` and the limiter
blocks for a full second — the claimed bound fails. -/
theorem c7_counterexample :
    (0 : ℚ) ≤ 0 ∧ initialRequestTime 0 = 0 ∧ firstElapsed 0 0 = 0 ∧
      ¬(1 ≤ firstElapsed 0 0) ∧ waitTillElapsed 1 (firstElapsed 0 0) = 1 := by
  norm_num [initialRequestTime, firstElapsed, waitTillElapsed]

/-- C7 (amended): the RateState seed `requestTime = -time()` makes the first
gate check compute `elapsed = t₁ + t₀ ≥ 1` — hence never block — provided the
wall clock at initialization is at least the minimum interval (1 second),
rather than merely non-negative (true of any real epoch clock). -/
theorem c7_first_call_never_blocks_amended (t₀ t₁ : ℚ)
    (h₀ : 1 ≤ t₀) (h₁ : t₀ ≤ t₁) :
    1 ≤ firstElapsed t₀ t₁ ∧ waitTillElapsed 1 (firstElapsed t₀ t₁) = 0 := by
  have he : 1 ≤ firstElapsed t₀ t₁ := by
    simp only [firstElapsed, initialRequestTime]
    linarith
  exact ⟨he, by simp only [waitTillElapsed, if_pos he]⟩

/-- Witness for the amended C7: at initialization clock 1 and first-check
clock 1, the computed elapsed time is ≥ 1 and the limiter does not block. -/
theorem c7_first_call_never_blocks_amended_witness :
    1 ≤ firstElapsed 1 1 ∧ waitTillElapsed 1 (firstElapsed 1 1) = 0 :=
  c7_first_call_never_blocks_amended 1 1 (le_refl 1) (le_refl 1)

/-- C8 counterexample: gene `G` appears in two chunk responses; in the latest
one its evidence list is empty, so the built list is `[]` and the code keeps
the earlier chunk's data — the merged SampleResult maps `G` to
`[("p1", 1.0)]`, not to the list built from the latest chunk in which it
appeared. -/
theorem c8_counterexample :
    digestAll [] [[("G", [("1.0", "p1")])], [("G", [])]] =
        .ok [("G", [("p1", mkRat 1 1)])] ∧
      buildGeneScores [] = .ok ([] : GeneScores) ∧
      dictGet [("G", [("p1", mkRat 1 1)])] "G" = [("p1", mkRat 1 1)] ∧
      [("p1", mkRat 1 1)] ≠ ([] : GeneScores) :=
  ⟨rfl, rfl, rfl, by decide⟩

theorem digestResponse_get_no_occ :
    ∀ (resp : List RawGene) (acc r : SampleResult) (g : String),
      digestResponse acc resp = .ok r →
      (∀ e ∈ resp, e.1 = g → buildGeneScores e.2 = .ok []) →
      dictGet r g = dictGet acc g := by
  intro resp
  induction resp with
  | nil =>
    intro acc r g h _
    simp only [digestResponse] at h
    cases h
    rfl
  | cons entry rest ih =>
    obtain ⟨g₀, raw₀⟩ := entry
    intro acc r g h hno
    simp only [digestResponse] at h
    cases hb : buildGeneScores raw₀ with
    | error s => rw [hb] at h; cases h
    | ok l₀ =>
      rw [hb] at h
      have h₀ : digestResponse (if 0 < l₀.length then dictInsert acc g₀ l₀ else acc) rest =
          Except.ok r := h
      by_cases hg : g₀ = g
      · have hempty : buildGeneScores raw₀ = .ok [] :=
          hno (g₀, raw₀) (List.mem_cons_self _ _) hg
        rw [hb] at hempty
        cases hempty
        exact ih acc r g h₀ (fun e he => hno e (List.mem_cons_of_mem _ he))
      · by_cases hl : 0 < l₀.length
        · rw [if_pos hl] at h₀
          have hrec :=
            ih (dictInsert acc g₀ l₀) r g h₀ (fun e he => hno e (List.mem_cons_of_mem _ he))
          rw [hrec, dictGet_dictInsert_ne acc g₀ l₀ g hg]
        · rw [if_neg hl] at h₀
          exact ih acc r g h₀ (fun e he => hno e (List.mem_cons_of_mem _ he))

theorem digestAll_get_no_occ :
    ∀ (responses : List (List RawGene)) (acc r : SampleResult) (g : String),
      digestAll acc responses = .ok r →
      (∀ resp ∈ responses, ∀ e ∈ resp, e.1 = g → buildGeneScores e.2 = .ok []) →
      dictGet r g = dictGet acc g := by
  intro responses
  induction responses with
  | nil =>
    intro acc r g h _
    simp only [digestAll] at h
    cases h
    rfl
  | cons resp rest ih =>
    intro acc r g h hno
    simp only [digestAll] at h
    cases hd : digestResponse acc resp with
    | error s => rw [hd] at h; cases h
    | ok acc₂ =>
      rw [hd] at h
      have h₁ := ih acc₂ r g h (fun x hx => hno x (List.mem_cons_of_mem _ hx))
      have h₂ :=
        digestResponse_get_no_occ resp acc acc₂ g hd
          (hno resp (List.mem_cons_self _ _))
      rw [h₁, h₂]

theorem digestResponse_get_last :
    ∀ (r₁ : List RawGene) (acc res : SampleResult) (g : String)
      (raw : List (String × String)) (l : GeneScores) (r₂ : List RawGene),
      digestResponse acc (r₁ ++ (g, raw) :: r₂) = .ok res →
      buildGeneScores raw = .ok l → l ≠ [] →
      (∀ e ∈ r₂, e.1 = g → buildGeneScores e.2 = .ok []) →
      dictGet res g = l := by
  intro r₁
  induction r₁ with
  | nil =>
    intro acc res g raw l r₂ h hb hl hno
    simp only [List.nil_append, digestResponse] at h
    rw [hb] at h
    have h₀ : digestResponse (if 0 < l.length then dictInsert acc g l else acc) r₂ =
        Except.ok res := h
    rw [if_pos (List.length_pos.mpr hl)] at h₀
    have hrec := digestResponse_get_no_occ r₂ (dictInsert acc g l) res g h₀ hno
    rw [hrec, dictGet_dictInsert_self]
  | cons entry rest ih =>
    obtain ⟨g₀, raw₀⟩ := entry
    intro acc res g raw l r₂ h hb hl hno
    simp only [List.cons_append, digestResponse] at h
    cases hb₀ : buildGeneScores raw₀ with
    | error s => rw [hb₀] at h; cases h
    | ok l₀ =>
      rw [hb₀] at h
      exact ih _ res g raw l r₂ h hb hl hno

theorem digestAll_append_decomp :
    ∀ (pre : List (List RawGene)) (acc res : SampleResult) (rs : List (List RawGene)),
      digestAll acc (pre ++ rs) = .ok res →
      ∃ acc₁, digestAll acc pre = .ok acc₁ ∧ digestAll acc₁ rs = .ok res := by
  intro pre
  induction pre with
  | nil =>
    intro acc res rs h
    exact ⟨acc, rfl, h⟩
  | cons r rest ih =>
    intro acc res rs h
    simp only [List.cons_append, digestAll] at h ⊢
    cases hd : digestResponse acc r with
    | error s => rw [hd] at h; cases h
    | ok acc₂ =>
      rw [hd] at h
      exact ih acc₂ res rs h

/-- C8 (amended): for a gene that appears in more than one chunk response,
the merged SampleResult maps it to exactly the evidence list built from its
latest appearance *with a non-empty built list* — overwrite, not additive
merge; appearances whose built list is empty (which are never inserted, per
the emptiness rule) do not overwrite earlier data. Formally: if `(g, raw)`
occurs in some response, builds to a non-empty `l`, and every later
occurrence of `g` (later in the same response, or in any later response)
builds to `[]`, then after a successful merge the result maps `g` to `l`. -/
theorem c8_latest_nonempty_chunk_wins
    (pre post : List (List RawGene)) (r₁ r₂ : List RawGene)
    (g : String) (raw : List (String × String)) (l : GeneScores)
    (acc res : SampleResult)
    (h : digestAll acc (pre ++ (r₁ ++ (g, raw) :: r₂) :: post) = .ok res)
    (hb : buildGeneScores raw = .ok l) (hl : l ≠ [])
    (hr₂ : ∀ e ∈ r₂, e.1 = g → buildGeneScores e.2 = .ok [])
    (hpost : ∀ resp ∈ post, ∀ e ∈ resp, e.1 = g → buildGeneScores e.2 = .ok []) :
    dictGet res g = l := by
  obtain ⟨acc₁, h₁, h₂⟩ := digestAll_append_decomp pre acc res _ h
  simp only [digestAll] at h₂
  cases hd : digestResponse acc₁ (r₁ ++ (g, raw) :: r₂) with
  | error s => rw [hd] at h₂; cases h₂
  | ok acc₂ =>
    rw [hd] at h₂
    have hmid := digestResponse_get_last r₁ acc₁ acc₂ g raw l r₂ hd hb hl hr₂
    have hpost₂ := digestAll_get_no_occ post acc₂ res g h₂ hpost
    rw [hpost₂, hmid]

/-- Witness for the amended C8: gene `G` builds `[("p1", 1.0)]` in the first
chunk and `[]` in the later chunk; the merge result maps `G` to the non-empty
list of its latest effective appearance. -/
theorem c8_latest_nonempty_chunk_wins_witness :
    dictGet [("G", [("p1", mkRat 1 1)])] "G" = [("p1", mkRat 1 1)] :=
  c8_latest_nonempty_chunk_wins [] [[("G", [])]] [] [] "G" [("1.0", "p1")]
    [("p1", mkRat 1 1)] [] [("G", [("p1", mkRat 1 1)])] rfl rfl (by decide)
    (by simp)
    (by
      intro resp hresp e he hg
      rw [List.mem_singleton] at hresp
      subst hresp
      rw [List.mem_singleton] at he
      subst he
      rfl)

end AmelieBenchmark
